import Mathlib

/-!
Verification of the Scrapper business-contact crawler.

The definitions below are a shallow embedding of the Rust sources
(src/extractor.rs, src/scraper.rs, src/job_manager.rs, src/main.rs,
src/resume_manager.rs).  Strings are modelled with Lean String and List Char;
the byte indices Rust uses coincide with the character indices used here on
the ASCII inputs the heuristics target, and Rust Unicode case mapping is
modelled character-wise.  The regular-expression engine, the HTML DOM
selection, the URL parser and the HTTP transport are external libraries:
their outputs (match lists, per-container text lines, parse success, fetch
responses) are oracle parameters, while every filter, bound and control
decision made by the repository itself is translated from the source.
HashSet is modelled as a list with membership-preserving insertion.
-/

namespace Scrapper

/-- Membership-preserving insertion: the model of HashSet insert (the set of
emails, phones and processed identifiers). -/
def insertDedup (l : List String) (s : String) : List String :=
  if s ∈ l then l else l ++ [s]

/-! ## Contact extractor: src/extractor.rs -/

/-- Rust str contains for character lists: the needle occurs somewhere in the
haystack. -/
def containsSeq : List Char → List Char → Bool
  | hay, needle =>
    needle.isPrefixOf hay ||
      match hay with
      | [] => false
      | _ :: t => containsSeq t needle

/-- Index of the first occurrence of the needle in the haystack (Rust str
find with a string pattern). -/
def findSub : List Char → List Char → Option Nat
  | hay, needle =>
    if needle.isPrefixOf hay then some 0
    else
      match hay with
      | [] => none
      | _ :: t => (findSub t needle).map (· + 1)

/-- Index of the last character satisfying p (Rust rfind with a char
predicate). -/
def rfindP (l : List Char) (p : Char → Bool) : Option Nat :=
  match l.reverse.findIdx? p with
  | some j => some (l.length - 1 - j)
  | none => none

/-- The delimiter class of extract_job_title: the characters of the Rust
pattern string holding comma, period, pipe, colon and newline. -/
def isDelim (c : Char) : Bool :=
  c == ',' || c == '.' || c == '|' || c == ':' || c == '\n'

/-- Rust str trim on a character list (leading and trailing whitespace). -/
def trimChars (l : List Char) : List Char :=
  ((l.dropWhile Char.isWhitespace).reverse.dropWhile Char.isWhitespace).reverse

/-- Rust str trim on a string, character-wise. -/
def rustTrim (s : String) : String := String.mk (trimChars s.data)

/-- Helper of splitWs: accumulates the current word in reverse. -/
def splitWsAux : List Char → List Char → List (List Char)
  | [], cur => if cur.isEmpty then [] else [cur.reverse]
  | c :: rest, cur =>
    if c.isWhitespace then
      if cur.isEmpty then splitWsAux rest [] else cur.reverse :: splitWsAux rest []
    else splitWsAux rest (c :: cur)

/-- Rust split_whitespace: the maximal runs of non-whitespace characters. -/
def splitWs (l : List Char) : List (List Char) := splitWsAux l []

/-- The ordered job-title keyword list of extract_job_title, in source
order. -/
def titles : List (List Char) :=
  ["ceo".data, "founder".data, "co-founder".data, "director".data, "manager".data,
   "president".data, "vp".data, "vice president".data, "head of".data, "chief".data,
   "owner".data, "partner".data, "sales".data, "support".data, "representative".data,
   "consultant".data, "hr".data, "human resources".data, "executive".data,
   "officer".data, "admin".data, "administrator".data]

/-- The banned generic-name word list of extract_name_candidate, in source
order. -/
def bannedNames : List (List Char) :=
  ["contact".data, "us".data, "touch".data, "support".data, "info".data,
   "customer".data, "service".data, "help".data, "desk".data, "address".data,
   "phone".data, "email".data, "mobile".data, "office".data, "headquarters".data,
   "inquiry".data, "sales".data, "admin".data, "webmaster".data, "career".data,
   "job".data, "opening".data, "team".data, "staff".data, "member".data,
   "department".data, "feedback".data, "question".data, "faq".data, "home".data,
   "about".data, "product".data, "privacy".data, "policy".data, "terms".data,
   "copyright".data, "rights".data, "reserved".data, "sitemap".data, "login".data,
   "register".data, "sign".data, "up".data]

/-- The keyword loop of extract_job_title: the first keyword of the list that
occurs in the lowercased text, together with the index of its first
occurrence there. -/
def firstTitleHit : List (List Char) → List Char → Option (List Char × Nat)
  | [], _ => none
  | t :: ts, lower =>
    match findSub lower t with
    | some idx => some (t, idx)
    | none => firstTitleHit ts lower

/-- The delimiter-bounded phrase of the text around index idx, computed as in
the source: the delimiter search runs on the lowercased text, the slice is
taken from the original text and trimmed. -/
def titlePhrase (text : String) (idx : Nat) : List Char :=
  let lower := text.data.map Char.toLower
  let start :=
    match rfindP (lower.take idx) isDelim with
    | some j => j + 1
    | none => 0
  let stop :=
    match (lower.drop idx).findIdx? isDelim with
    | some k => idx + k
    | none => text.data.length
  trimChars ((text.data.drop start).take (stop - start))

/-- The function extract_job_title of src/extractor.rs. -/
def extract_job_title (text : String) : Option String :=
  let lower := text.data.map Char.toLower
  match firstTitleHit titles lower with
  | none => none
  | some (t, idx) =>
    let candidate := titlePhrase text idx
    if candidate.length < 50 ∧ t.length < candidate.length then
      some (String.mk candidate)
    else
      some (String.mk t)

/-- The function extract_name_candidate of src/extractor.rs. -/
def extract_name_candidate (text : String) : Option String :=
  let ws := splitWs text.data
  if ws.length < 2 ∨ ws.length > 3 then none
  else if ¬ (ws.all fun w => (w.headD 'a').isUpper && w.any Char.isLower) = true then none
  else if (bannedNames.any fun b => containsSeq (text.data.map Char.toLower) b) = true then none
  else some text

/-- The digit-only characters of a phone candidate. -/
def digitsOf (p : String) : List Char := p.data.filter Char.isDigit

/-- One step of the Indian-mobile loop of extract_phones: the match is
trimmed and inserted unconditionally. -/
def indianStep (acc : List String) (m : String) : List String :=
  insertDedup acc (rustTrim m)

/-- One step of the generic-pattern loop of extract_phones: the trimmed match
is inserted only when its digit-only length lies in the closed interval from
10 to 13. -/
def genericStep (acc : List String) (m : String) : List String :=
  if 10 ≤ (digitsOf (rustTrim m)).length ∧ (digitsOf (rustTrim m)).length ≤ 13 then
    insertDedup acc (rustTrim m)
  else acc

/-- The function extract_phones of src/extractor.rs.  The two regex engines are oracle
parameters giving the raw match lists of the Indian-mobile pattern and of the
generic phone pattern. -/
def extract_phones (ind gen : String → List String) (text : String) : List String :=
  (gen text).foldl genericStep ((ind text).foldl indianStep [])

/-- The function extract_emails of src/extractor.rs.  The email regex engine is an oracle
parameter giving the raw match list; each match is lowercased and dropped
when it ends in a known image extension. -/
def extract_emails (em : String → List String) (text : String) : List String :=
  (em text).foldl
    (fun acc m =>
      let e := m.toLower
      if e.endsWith ".png" || e.endsWith ".jpg" || e.endsWith ".jpeg"
          || e.endsWith ".gif" || e.endsWith ".webp" then acc
      else insertDedup acc e)
    []

/-! ## Site crawler: src/scraper.rs -/

/-- The Contact record of src/scraper.rs. -/
structure Contact where
  name : Option String
  title : Option String
  email : Option String
  phone : Option String
deriving DecidableEq

/-- The ScrapeStatus outcome of src/scraper.rs. -/
inductive ScrapeStatus where
  | Success
  | NoData
  | Blocked
  | Error
deriving DecidableEq

/-- The ScrapingResult record of src/scraper.rs; the HashSet fields are membership
lists. -/
structure ScrapingResult where
  emails : List String
  phones : List String
  contacts : List Contact
  status : ScrapeStatus
  source_pages : List String
deriving DecidableEq

/-- The default ScrapingResult: empty sets, default status NoData. -/
def emptyResult : ScrapingResult :=
  { emails := [], phones := [], contacts := [], status := ScrapeStatus.NoData,
    source_pages := [] }

/-- The three regex oracles used by the extractor inside the crawl. -/
structure ExtractOracles where
  indian : String → List String
  generic : String → List String
  email : String → List String

/-- A fetched page as the crawl sees it: the HTTP status code, the raw body
handed to the whole-page extractor, the non-empty trimmed text lines of each
selected container element (the DOM selection is an external library), and
the output of discover_contact_links on the page (link discovery parses the
DOM and resolves URLs, both external). -/
structure Page where
  status : Nat
  body : String
  containerLines : List (List String)
  links : List String

/-- The per-line contact pass of scrape_site for line number i of one
container: when the line yields a phone, name and title are searched on the
same line, then on the previous line, then (for the name) two lines back,
and a Contact is recorded unless an equal phone and name pair exists. -/
def contactStep (E : ExtractOracles) (lines : List String)
    (acc : List Contact) (i : Nat) : List Contact :=
  let line := lines.getD i ""
  let phones := extract_phones E.indian E.generic line
  if phones.isEmpty then acc
  else
    let title0 := extract_job_title line
    let name0 := extract_name_candidate line
    let emails := extract_emails E.email line
    let name1 :=
      if name0.isNone ∧ 0 < i then extract_name_candidate (lines.getD (i - 1) "")
      else name0
    let title1 :=
      if name0.isNone ∧ 0 < i ∧ title0.isNone then extract_job_title (lines.getD (i - 1) "")
      else title0
    let name2 :=
      if name1.isNone ∧ 1 < i then extract_name_candidate (lines.getD (i - 2) "")
      else name1
    let title2 :=
      if title1.isNone ∧ 0 < i then extract_job_title (lines.getD (i - 1) "")
      else title1
    if name2.isSome ∨ title2.isSome then
      let c : Contact :=
        { name := name2, title := title2, email := emails.head?, phone := phones.head? }
      if acc.any fun c0 => c0.phone == c.phone && c0.name == c.name then acc
      else acc ++ [c]
    else acc

/-- The contact pass over the lines of one container. -/
def contactsFromLines (E : ExtractOracles) (lines : List String)
    (acc : List Contact) : List Contact :=
  (List.range lines.length).foldl (contactStep E lines) acc

/-- Processing of one successfully fetched, non-blocked page: the per-line
contact pass over every container, then the whole-page email and phone
extraction unioned into the site-level sets, recording the page URL as a
source page when either set could gain a value from this page. -/
def processPage (E : ExtractOracles) (url : String) (page : Page)
    (res : ScrapingResult) : ScrapingResult :=
  let contacts := page.containerLines.foldl (fun cs ls => contactsFromLines E ls cs) res.contacts
  let emails := extract_emails E.email page.body
  let phones := extract_phones E.indian E.generic page.body
  { res with
    contacts := contacts
    source_pages :=
      if ¬ emails.isEmpty ∨ ¬ phones.isEmpty then res.source_pages ++ [url]
      else res.source_pages
    emails := emails.foldl insertDedup res.emails
    phones := phones.foldl insertDedup res.phones }

/-- The outcome classification evaluated when the crawl loop ends without an
early return: Success when any email or phone was found, otherwise NoData
unless Blocked or Error is already set. -/
def classify (res : ScrapingResult) : ScrapingResult :=
  if ¬ res.emails.isEmpty ∨ ¬ res.phones.isEmpty then { res with status := ScrapeStatus.Success }
  else if res.status ≠ ScrapeStatus.Blocked ∧ res.status ≠ ScrapeStatus.Error then
    { res with status := ScrapeStatus.NoData }
  else res

/-- The crawl loop of scrape_site after the first page.  Link discovery runs
only on the first successful fetch, which is always the seed (the queue holds
nothing else before it), so from the second iteration on the queue only
shrinks and the loop is structural recursion on it.  The second component
accumulates the trace of URLs actually fetched (the visit_page calls).
Each popped URL repeats the source checks: stop at 3 visited pages, skip a
URL already visited, skip a failed later page, return Blocked immediately on
status 403 or 429. -/
def crawlRest (E : ExtractOracles) (fetch : String → Option Page) :
    List String → List String → Nat → ScrapingResult → List String →
    ScrapingResult × List String
  | [], _, _, res, trace => (classify res, trace)
  | url :: rest, visited, pv, res, trace =>
    if 3 ≤ pv then (classify res, trace)
    else if url ∈ visited then crawlRest E fetch rest visited pv res trace
    else
      match fetch url with
      | none => crawlRest E fetch rest visited pv res (trace ++ [url])
      | some page =>
        if page.status = 403 ∨ page.status = 429 then
          ({ res with status := ScrapeStatus.Blocked }, trace ++ [url])
        else
          crawlRest E fetch rest (url :: visited) (pv + 1)
            (processPage E url page res) (trace ++ [url])

/-- The function scrape_site of src/scraper.rs.  Here parseOk is the URL-parser oracle (Url
parse of the seed), fetch the transport oracle (None is a transport error).
A seed that does not parse yields outcome Error with no fetch.  The first
iteration of the source loop always pops the seed with no page visited yet:
a transport error there yields Error immediately, a 403 or 429 yields
Blocked immediately, and a success processes the page, enqueues the
discovered links not yet visited, and continues with the loop. -/
def scrape_site (E : ExtractOracles) (parseOk : String → Bool)
    (fetch : String → Option Page) (startUrl : String) :
    ScrapingResult × List String :=
  if parseOk startUrl then
    match fetch startUrl with
    | none => ({ emptyResult with status := ScrapeStatus.Error }, [startUrl])
    | some page =>
      if page.status = 403 ∨ page.status = 429 then
        ({ emptyResult with status := ScrapeStatus.Blocked }, [startUrl])
      else
        let res := processPage E startUrl page emptyResult
        let queue := page.links.filter fun l => l ∉ [startUrl]
        crawlRest E fetch queue [startUrl] 1 res [startUrl]
  else ({ emptyResult with status := ScrapeStatus.Error }, [])

/-- A URL whose fetch succeeds with a blocking status code (403 or 429). -/
def blockedFetch (fetch : String → Option Page) (u : String) : Prop :=
  ∃ p, fetch u = some p ∧ (p.status = 403 ∨ p.status = 429)

/-! ## Job controller rolling log: src/job_manager.rs -/

/-- The operations of run_scraper and send_control that touch the log of a
job: an update through the update_status closure (with an optional log
line), and the two direct pushes made when a stop request or a resume is
observed in the control loop. -/
inductive LogOp where
  | update (msg : Option String)
  | stopMsg
  | resumeMsg
deriving DecidableEq

/-- The effect of one operation on the log: update_status pushes the line
and removes the front line when the length exceeds 50; the stop and resume
messages are pushed directly. -/
def pushLog (logs : List String) : LogOp → List String
  | LogOp.update none => logs
  | LogOp.update (some msg) =>
    let l := logs ++ [msg]
    if l.length > 50 then l.tail else l
  | LogOp.stopMsg => logs ++ ["Job stopped by user."]
  | LogOp.resumeMsg => logs ++ ["Job resumed."]

/-- The operations that push a line without the cap check. -/
def isDirectPush : LogOp → Bool
  | LogOp.update _ => false
  | LogOp.stopMsg => true
  | LogOp.resumeMsg => true

/-- The initial log of a job as start_job creates it. -/
def initialLogs : List String := ["Job started."]

/-- The log after a sequence of log operations on a fresh job. -/
def runLogOps (ops : List LogOp) : List String := ops.foldl pushLog initialLogs

/-! ## Output rows: src/job_manager.rs run_scraper and src/main.rs -/

/-- The InputRecord row of src/input_loader.rs. -/
structure InputRecord where
  company : String
  website : Option String
  country : String
deriving DecidableEq

/-- The outcome column text of a scrape status. -/
def statusCode : ScrapeStatus → String
  | ScrapeStatus.Success => "success"
  | ScrapeStatus.NoData => "no_data"
  | ScrapeStatus.Blocked => "blocked"
  | ScrapeStatus.Error => "error"

/-- One flattened contact slot of the output row: the four fields of contact
number j, or four empty cells when there is no such contact. -/
def contactSlot (contacts : List Contact) (j : Nat) : List String :=
  match contacts[j]? with
  | some c => [c.name.getD "", c.title.getD "", c.phone.getD "", c.email.getD ""]
  | none => ["", "", "", ""]

/-- The contact columns of the output row: the loop over slots 0 to 4 of
run_scraper. -/
def flattenContacts (contacts : List Contact) : List String :=
  contactSlot contacts 0 ++ (contactSlot contacts 1 ++ (contactSlot contacts 2 ++
    (contactSlot contacts 3 ++ contactSlot contacts 4)))

/-- The output row run_scraper writes for one item, given the resolved
target URL (None when the resolver found no website) and the scrape result
of each URL.  Base columns in source order, then the five contact slots. -/
def itemRow (record : InputRecord) (targetUrl : Option String)
    (scrapeOf : String → ScrapingResult) (timestamp : String) : List String :=
  match targetUrl with
  | some url =>
    let result := scrapeOf url
    [record.company, record.country, url,
     String.intercalate "; " result.emails,
     String.intercalate "; " result.phones,
     String.intercalate "; " result.source_pages,
     statusCode result.status, timestamp] ++ flattenContacts result.contacts
  | none =>
    [record.company, record.country, "", "", "", "", "not_found", timestamp] ++
      flattenContacts []

/-- The output row the batch main loop of src/main.rs writes for one item:
the same eight base columns and no contact slots. -/
def mainRow (record : InputRecord) (targetUrl : Option String)
    (scrapeOf : String → ScrapingResult) (timestamp : String) : List String :=
  match targetUrl with
  | some url =>
    let result := scrapeOf url
    [record.company, record.country, url,
     String.intercalate "; " result.emails,
     String.intercalate "; " result.phones,
     String.intercalate "; " result.source_pages,
     statusCode result.status, timestamp]
  | none =>
    [record.company, record.country, "", "", "", "", "not_found", timestamp]

/-! ## Batch main loop and progress ledger: src/main.rs, src/resume_manager.rs -/

/-- The observable per-item events of the batch main loop: a skip of an
identifier found in the ledger, a row write attempt (ok false models a csv
write error, which the source only logs), a successful output flush, and a
mark_complete call (insert into the ledger and synchronous save). -/
inductive RunEv where
  | skip (id : String)
  | writeRow (id : String) (ok : Bool)
  | flushed
  | mark (id : String)
deriving DecidableEq

/-- The mutable state of the batch main loop: the progress ledger and the
event trace. -/
structure RunState where
  ledger : List String
  events : List RunEv
deriving DecidableEq

/-- The per-record batch loop of src/main.rs.  The identifier is the trimmed
company name; a record whose identifier is in the ledger is skipped.  A
processed record writes its row (a write error is logged and the loop
continues), flushes (a flush error aborts the whole run through the question
mark operator, before any mark), and then marks the identifier complete. -/
def runBatch (writeOk flushOk : Nat → Bool) :
    List InputRecord → Nat → RunState → RunState
  | [], _, st => st
  | r :: rest, i, st =>
    if rustTrim r.company ∈ st.ledger then
      runBatch writeOk flushOk rest (i + 1)
        { st with events := st.events ++ [RunEv.skip (rustTrim r.company)] }
    else if flushOk i then
      runBatch writeOk flushOk rest (i + 1)
        { ledger := insertDedup st.ledger (rustTrim r.company)
          events := (st.events ++ [RunEv.writeRow (rustTrim r.company) (writeOk i)]) ++
            [RunEv.flushed, RunEv.mark (rustTrim r.company)] }
    else { st with events := st.events ++ [RunEv.writeRow (rustTrim r.company) (writeOk i)] }

/-- A whole batch run from a loaded ledger. -/
def runMain (writeOk flushOk : Nat → Bool) (records : List InputRecord)
    (initLedger : List String) : RunState :=
  runBatch writeOk flushOk records 0 { ledger := initLedger, events := [] }

/-- Every mark event in the trace sits immediately after the write attempt
and the flush of the same identifier. -/
def marksPrecededByWrite (evs : List RunEv) : Prop :=
  ∀ pre post id, evs = pre ++ RunEv.mark id :: post →
    ∃ pre₀ ok, pre = pre₀ ++ [RunEv.writeRow id ok, RunEv.flushed]

/-! ## Concrete instances used by witnesses and counterexamples -/

/-- Oracles returning no regex matches. -/
def noMatches : ExtractOracles :=
  { indian := fun _ => [], generic := fun _ => [], email := fun _ => [] }

/-- A URL parser oracle accepting everything. -/
def parseAll : String → Bool := fun _ => true

/-- A URL parser oracle rejecting everything. -/
def parseNone : String → Bool := fun _ => false

/-- A transport oracle failing every request. -/
def fetchFail : String → Option Page := fun _ => none

/-- A page with HTTP status 200 and no content. -/
def blankPage : Page := { status := 200, body := "", containerLines := [], links := [] }

/-- A page answering with HTTP status 429. -/
def blockedPage : Page := { status := 429, body := "", containerLines := [], links := [] }

/-- A transport oracle serving the blank page at the seed only. -/
def fetchSeedOnly : String → Option Page :=
  fun u => if u = "https://e.com" then some blankPage else none

/-- A transport oracle answering 429 everywhere. -/
def fetchBlocked : String → Option Page := fun _ => some blockedPage

/-- The operation sequence of the rolling-log counterexample: 49 capped
updates filling the log to 50 lines, then an observed stop request. -/
def logOverflowOps : List LogOp :=
  List.replicate 49 (LogOp.update (some "step")) ++ [LogOp.stopMsg]

/-- The record of the ledger counterexample. -/
def cexRecord : InputRecord :=
  { company := "A", website := some "http://a.com", country := "US" }

/-- The constantly false and constantly true index oracles. -/
def alwaysFalse : Nat → Bool := fun _ => false

/-- The constantly true index oracle. -/
def alwaysTrue : Nat → Bool := fun _ => true

/-- The input of the job-title counterexample: 47 filler characters followed
by the first keyword, so the delimiter-bounded phrase is the whole 50
character text. -/
def titleCexInput : String := "xxxxxxxxxxxxxxxxxxxxxxxxxxxxxxxxxxxxxxxxxxxxxxxceo"

end Scrapper

namespace Scrapper

lemma mem_insertDedup {p s : String} {l : List String} :
    p ∈ insertDedup l s ↔ p ∈ l ∨ p = s := by
  unfold insertDedup
  split_ifs with h
  · constructor
    · exact fun hp => Or.inl hp
    · rintro (hp | rfl)
      · exact hp
      · exact h
  · simp [List.mem_append]

lemma mem_foldl_indianStep : ∀ (ms acc : List String) (p : String),
    p ∈ ms.foldl indianStep acc ↔ p ∈ acc ∨ ∃ m ∈ ms, p = rustTrim m := by
  intro ms
  induction ms with
  | nil => simp
  | cons m ms ih =>
    intro acc p
    rw [List.foldl_cons, ih]
    simp only [indianStep, mem_insertDedup, List.mem_cons]
    constructor
    · rintro ((hp | rfl) | ⟨x, hx, rfl⟩)
      · exact Or.inl hp
      · exact Or.inr ⟨m, Or.inl rfl, rfl⟩
      · exact Or.inr ⟨x, Or.inr hx, rfl⟩
    · rintro (hp | ⟨x, (rfl | hx), rfl⟩)
      · exact Or.inl (Or.inl hp)
      · exact Or.inl (Or.inr rfl)
      · exact Or.inr ⟨x, hx, rfl⟩

lemma mem_foldl_genericStep : ∀ (ms acc : List String) (p : String),
    p ∈ ms.foldl genericStep acc ↔
      p ∈ acc ∨ ∃ m ∈ ms, p = rustTrim m ∧
        10 ≤ (digitsOf (rustTrim m)).length ∧ (digitsOf (rustTrim m)).length ≤ 13 := by
  intro ms
  induction ms with
  | nil => simp
  | cons m ms ih =>
    intro acc p
    rw [List.foldl_cons, ih]
    simp only [genericStep, List.mem_cons]
    by_cases hd : 10 ≤ (digitsOf (rustTrim m)).length ∧ (digitsOf (rustTrim m)).length ≤ 13
    · rw [if_pos hd]
      simp only [mem_insertDedup]
      constructor
      · rintro ((hp | rfl) | ⟨x, hx, rfl, hb⟩)
        · exact Or.inl hp
        · exact Or.inr ⟨m, Or.inl rfl, rfl, hd⟩
        · exact Or.inr ⟨x, Or.inr hx, rfl, hb⟩
      · rintro (hp | ⟨x, (rfl | hx), rfl, hb⟩)
        · exact Or.inl (Or.inl hp)
        · exact Or.inl (Or.inr rfl)
        · exact Or.inr ⟨x, hx, rfl, hb⟩
    · rw [if_neg hd]
      constructor
      · rintro (hp | ⟨x, hx, rfl, hb⟩)
        · exact Or.inl hp
        · exact Or.inr ⟨x, Or.inr hx, rfl, hb⟩
      · rintro (hp | ⟨x, (rfl | hx), rfl, hb⟩)
        · exact Or.inl hp
        · exact absurd hb hd
        · exact Or.inr ⟨x, hx, rfl, hb⟩

/-- Claim C8: every phone returned by extract_phones that did not come from
the region-specific Indian-mobile pattern has a digit-only length between 10
and 13 inclusive, and every Indian-mobile match is included (trimmed)
regardless of its digit count. -/
theorem extract_phones_digit_policy (ind gen : String → List String) (text : String) :
    (∀ p ∈ extract_phones ind gen text,
        p ∈ (ind text).map rustTrim ∨
          (10 ≤ (digitsOf p).length ∧ (digitsOf p).length ≤ 13)) ∧
    (∀ m ∈ ind text, rustTrim m ∈ extract_phones ind gen text) := by
  constructor
  · intro p hp
    rw [extract_phones, mem_foldl_genericStep] at hp
    rcases hp with hp | ⟨m, _, rfl, h10, h13⟩
    · rw [mem_foldl_indianStep] at hp
      rcases hp with hp | ⟨m, hm, rfl⟩
      · simp at hp
      · exact Or.inl (List.mem_map.mpr ⟨m, hm, rfl⟩)
    · exact Or.inr ⟨h10, h13⟩
  · intro m hm
    rw [extract_phones, mem_foldl_genericStep]
    exact Or.inl ((mem_foldl_indianStep _ _ _).mpr (Or.inr ⟨m, hm, rfl⟩))

/-- Claim C9: extract_name_candidate returns the text unchanged exactly when
it has 2 or 3 whitespace-separated tokens, every token starts with an
uppercase letter and contains a lowercase letter, and the lowercased text
contains no denylisted term; otherwise it returns none. -/
theorem extract_name_candidate_spec (text : String) :
    extract_name_candidate text =
      if 2 ≤ (splitWs text.data).length ∧ (splitWs text.data).length ≤ 3
          ∧ (∀ w ∈ splitWs text.data, (w.headD 'a').isUpper = true ∧ w.any Char.isLower = true)
          ∧ (∀ b ∈ bannedNames, containsSeq (text.data.map Char.toLower) b = false)
        then some text else none := by
  unfold extract_name_candidate
  by_cases h1 : (splitWs text.data).length < 2 ∨ (splitWs text.data).length > 3
  · rw [if_pos h1, if_neg]
    rintro ⟨ha, hb, -⟩
    omega
  · rw [if_neg h1]
    have hlen := not_or.mp h1
    by_cases h2 : ¬ ((splitWs text.data).all fun w => (w.headD 'a').isUpper && w.any Char.isLower) = true
    · rw [if_pos h2, if_neg]
      rintro ⟨-, -, hcap, -⟩
      apply h2
      rw [List.all_eq_true]
      intro w hw
      rw [Bool.and_eq_true]
      exact hcap w hw
    · rw [if_neg h2]
      rw [not_not] at h2
      by_cases h3 : (bannedNames.any fun b => containsSeq (text.data.map Char.toLower) b) = true
      · rw [if_pos h3, if_neg]
        rintro ⟨-, -, -, hban⟩
        obtain ⟨b, hb, hc⟩ := List.any_eq_true.mp h3
        rw [hban b hb] at hc
        exact Bool.false_ne_true hc
      · rw [if_neg h3, if_pos]
        refine ⟨by omega, by omega, ?_, ?_⟩
        · intro w hw
          have hw2 := List.all_eq_true.mp h2 w hw
          simp only [Bool.and_eq_true] at hw2
          exact hw2
        · intro b hb
          cases hcs : containsSeq (text.data.map Char.toLower) b with
          | false => rfl
          | true => exact absurd (List.any_eq_true.mpr ⟨b, hb, hcs⟩) h3

lemma firstTitleHit_eq_none : ∀ (ts : List (List Char)) (lower : List Char),
    firstTitleHit ts lower = none ↔ ∀ t ∈ ts, findSub lower t = none := by
  intro ts
  induction ts with
  | nil => simp [firstTitleHit]
  | cons t ts ih =>
    intro lower
    rw [firstTitleHit]
    cases h : findSub lower t with
    | some idx => simp [h]
    | none => simp [h, ih]

lemma firstTitleHit_eq_some : ∀ (ts : List (List Char)) (lower t : List Char) (idx : Nat),
    firstTitleHit ts lower = some (t, idx) →
      findSub lower t = some idx ∧
      ∃ pre post, ts = pre ++ t :: post ∧ ∀ u ∈ pre, findSub lower u = none := by
  intro ts
  induction ts with
  | nil => intro lower t idx h; exact absurd h (by simp [firstTitleHit])
  | cons t0 ts ih =>
    intro lower t idx h
    rw [firstTitleHit] at h
    cases h0 : findSub lower t0 with
    | some idx0 =>
      rw [h0] at h
      obtain ⟨rfl, rfl⟩ : t0 = t ∧ idx0 = idx := by
        injection h with h
        injection h with h1 h2
        exact ⟨h1, h2⟩
      exact ⟨h0, [], ts, rfl, by simp⟩
    | none =>
      rw [h0] at h
      obtain ⟨hfind, pre, post, rfl, hpre⟩ := ih lower t idx h
      refine ⟨hfind, t0 :: pre, post, rfl, ?_⟩
      intro u hu
      rcases List.mem_cons.mp hu with rfl | hu
      · exact h0
      · exact hpre u hu

/-- Claim C3 (amended): extract_job_title scans the keyword list in source
order; it returns none exactly when no keyword occurs in the lowercased
text, and on the first keyword hit it returns the enclosing
delimiter-bounded phrase when that phrase is strictly shorter than 50
characters and strictly longer than the keyword, and the bare keyword
otherwise. -/
theorem extract_job_title_characterization (text : String) :
    (extract_job_title text = none ↔
      ∀ t ∈ titles, findSub (text.data.map Char.toLower) t = none) ∧
    (∀ t idx, firstTitleHit titles (text.data.map Char.toLower) = some (t, idx) →
      findSub (text.data.map Char.toLower) t = some idx ∧
      (∃ pre post, titles = pre ++ t :: post ∧
        ∀ u ∈ pre, findSub (text.data.map Char.toLower) u = none) ∧
      extract_job_title text =
        (if (titlePhrase text idx).length < 50 ∧ t.length < (titlePhrase text idx).length
         then some (String.mk (titlePhrase text idx))
         else some (String.mk t))) := by
  constructor
  · rw [extract_job_title]
    cases h : firstTitleHit titles (text.data.map Char.toLower) with
    | none => simpa using (firstTitleHit_eq_none titles (text.data.map Char.toLower)).mp h
    | some p =>
      obtain ⟨t, idx⟩ := p
      obtain ⟨hfind, pre, post, hsplit, -⟩ := firstTitleHit_eq_some _ _ _ _ h
      constructor
      · intro hnone
        by_cases hc : (titlePhrase text idx).length < 50 ∧ t.length < (titlePhrase text idx).length <;>
          simp [hc] at hnone
      · intro hall
        have ht : t ∈ titles := by rw [hsplit]; exact List.mem_append_right _ (List.mem_cons_self _ _)
        rw [hall t ht] at hfind
        exact absurd hfind (by simp)
  · intro t idx h
    obtain ⟨hfind, pre, post, hsplit, hpre⟩ := firstTitleHit_eq_some _ _ _ _ h
    refine ⟨hfind, ⟨pre, post, hsplit, hpre⟩, ?_⟩
    rw [extract_job_title, h]

/-- Claim C3, counterexample to the stated fallback boundary: on a 50
character delimiter-free input holding the first keyword, the enclosing
phrase has exactly 50 characters, which does not exceed 50 and is longer
than the keyword, yet the source falls back to the bare keyword. -/
theorem extract_job_title_at_50_cex :
    titlePhrase titleCexInput 47 = titleCexInput.data ∧
    (titlePhrase titleCexInput 47).length = 50 ∧
    "ceo".length < (titlePhrase titleCexInput 47).length ∧
    firstTitleHit titles (titleCexInput.data.map Char.toLower) = some ("ceo".data, 47) ∧
    extract_job_title titleCexInput = some "ceo" ∧
    extract_job_title titleCexInput ≠ some titleCexInput := by
  refine ⟨by decide, by decide, by decide, by decide, by decide, by decide⟩

section CrawlUnfold

variable {E : ExtractOracles} {fetch : String → Option Page} {url : String}
variable {rest visited trace : List String} {pv : Nat} {res : ScrapingResult} {page : Page}

lemma crawlRest_nil :
    crawlRest E fetch [] visited pv res trace = (classify res, trace) := rfl

lemma crawlRest_cap (h3 : 3 ≤ pv) :
    crawlRest E fetch (url :: rest) visited pv res trace = (classify res, trace) := by
  rw [crawlRest, if_pos h3]

lemma crawlRest_skip (h3 : ¬ 3 ≤ pv) (h4 : url ∈ visited) :
    crawlRest E fetch (url :: rest) visited pv res trace =
      crawlRest E fetch rest visited pv res trace := by
  rw [crawlRest, if_neg h3, if_pos h4]

lemma crawlRest_fail (h3 : ¬ 3 ≤ pv) (h4 : url ∉ visited) (h5 : fetch url = none) :
    crawlRest E fetch (url :: rest) visited pv res trace =
      crawlRest E fetch rest visited pv res (trace ++ [url]) := by
  rw [crawlRest, if_neg h3, if_neg h4, h5]

lemma crawlRest_hitBlocked (h3 : ¬ 3 ≤ pv) (h4 : url ∉ visited)
    (h5 : fetch url = some page) (h6 : page.status = 403 ∨ page.status = 429) :
    crawlRest E fetch (url :: rest) visited pv res trace =
      ({ res with status := ScrapeStatus.Blocked }, trace ++ [url]) := by
  rw [crawlRest, if_neg h3, if_neg h4, h5]
  dsimp only
  rw [if_pos h6]

lemma crawlRest_hitOk (h3 : ¬ 3 ≤ pv) (h4 : url ∉ visited)
    (h5 : fetch url = some page) (h6 : ¬ (page.status = 403 ∨ page.status = 429)) :
    crawlRest E fetch (url :: rest) visited pv res trace =
      crawlRest E fetch rest (url :: visited) (pv + 1)
        (processPage E url page res) (trace ++ [url]) := by
  rw [crawlRest, if_neg h3, if_neg h4, h5]
  dsimp only
  rw [if_neg h6]

lemma scrape_site_parse_fail {parseOk : String → Bool} {startUrl : String}
    (hp : parseOk startUrl = false) :
    scrape_site E parseOk fetch startUrl =
      ({ emptyResult with status := ScrapeStatus.Error }, []) := by
  rw [scrape_site, if_neg (by rw [hp]; exact Bool.false_ne_true)]

lemma scrape_site_seed_fail {parseOk : String → Bool} {startUrl : String}
    (hp : parseOk startUrl = true) (hf : fetch startUrl = none) :
    scrape_site E parseOk fetch startUrl =
      ({ emptyResult with status := ScrapeStatus.Error }, [startUrl]) := by
  rw [scrape_site, if_pos hp, hf]

lemma scrape_site_seed_blocked {parseOk : String → Bool} {startUrl : String}
    (hp : parseOk startUrl = true) (hf : fetch startUrl = some page)
    (h6 : page.status = 403 ∨ page.status = 429) :
    scrape_site E parseOk fetch startUrl =
      ({ emptyResult with status := ScrapeStatus.Blocked }, [startUrl]) := by
  rw [scrape_site, if_pos hp, hf]
  dsimp only
  rw [if_pos h6]

lemma scrape_site_seed_ok {parseOk : String → Bool} {startUrl : String}
    (hp : parseOk startUrl = true) (hf : fetch startUrl = some page)
    (h6 : ¬ (page.status = 403 ∨ page.status = 429)) :
    scrape_site E parseOk fetch startUrl =
      crawlRest E fetch (page.links.filter fun l => l ∉ [startUrl]) [startUrl] 1
        (processPage E startUrl page emptyResult) [startUrl] := by
  rw [scrape_site, if_pos hp, hf]
  dsimp only
  rw [if_neg h6]

end CrawlUnfold

lemma crawlRest_countP (E : ExtractOracles) (fetch : String → Option Page) :
    ∀ (queue visited : List String) (pv : Nat) (res : ScrapingResult) (trace : List String),
      (trace.countP fun u => (fetch u).isSome) = pv → pv ≤ 3 →
      ((crawlRest E fetch queue visited pv res trace).2.countP fun u => (fetch u).isSome) ≤ 3 := by
  intro queue
  induction queue with
  | nil =>
    intro visited pv res trace h1 h2
    rw [crawlRest_nil]
    dsimp only
    omega
  | cons url rest ih =>
    intro visited pv res trace h1 h2
    by_cases h3 : 3 ≤ pv
    · rw [crawlRest_cap h3]
      dsimp only
      omega
    · by_cases h4 : url ∈ visited
      · rw [crawlRest_skip h3 h4]
        exact ih visited pv res trace h1 h2
      · cases h5 : fetch url with
        | none =>
          rw [crawlRest_fail h3 h4 h5]
          apply ih
          · rw [List.countP_append, h1]
            simp [h5]
          · exact h2
        | some page =>
          by_cases h6 : page.status = 403 ∨ page.status = 429
          · rw [crawlRest_hitBlocked h3 h4 h5 h6]
            dsimp only
            have h7 : List.countP (fun u => (fetch u).isSome) [url] = 1 := by simp [h5]
            rw [List.countP_append, h1, h7]
            omega
          · rw [crawlRest_hitOk h3 h4 h5 h6]
            apply ih
            · rw [List.countP_append, h1]
              have hsome : (fetch url).isSome = true := by simp [h5]
              simp [hsome]
            · omega

lemma crawlRest_no_refetch (E : ExtractOracles) (fetch : String → Option Page) :
    ∀ (queue visited : List String) (pv : Nat) (res : ScrapingResult) (trace : List String),
      (∀ u, (fetch u).isSome = true → trace.count u ≤ 1) →
      (∀ u, (fetch u).isSome = true → u ∈ trace → u ∈ visited) →
      ∀ u, (fetch u).isSome = true →
        (crawlRest E fetch queue visited pv res trace).2.count u ≤ 1 := by
  intro queue
  induction queue with
  | nil =>
    intro visited pv res trace hcount hmem u hu
    rw [crawlRest_nil]
    dsimp only
    exact hcount u hu
  | cons url rest ih =>
    intro visited pv res trace hcount hmem u hu
    by_cases h3 : 3 ≤ pv
    · rw [crawlRest_cap h3]
      dsimp only
      exact hcount u hu
    · by_cases h4 : url ∈ visited
      · rw [crawlRest_skip h3 h4]
        exact ih visited pv res trace hcount hmem u hu
      · cases h5 : fetch url with
        | none =>
          rw [crawlRest_fail h3 h4 h5]
          apply ih _ _ _ _ _ _ u hu
          · intro v hv
            have hvne : v ≠ url := by
              intro h
              rw [h, h5] at hv
              simp at hv
            have h0 : List.count v [url] = 0 :=
              List.count_eq_zero.mpr fun hmem2 => hvne (List.mem_singleton.mp hmem2)
            rw [List.count_append, h0]
            have := hcount v hv
            omega
          · intro v hv hvmem
            rcases List.mem_append.mp hvmem with h | h
            · exact hmem v hv h
            · exfalso
              have hv2 : v = url := List.mem_singleton.mp h
              rw [hv2, h5] at hv
              simp at hv
        | some page =>
          have hurl_not : url ∉ trace := fun h => h4 (hmem url (by simp [h5]) h)
          have hcount2 : ∀ v, (fetch v).isSome = true → (trace ++ [url]).count v ≤ 1 := by
            intro v hv
            rw [List.count_append]
            by_cases hveq : v = url
            · subst hveq
              have h0 : trace.count v = 0 := List.count_eq_zero.mpr hurl_not
              simp [h0]
            · have h0 : List.count v [url] = 0 :=
                List.count_eq_zero.mpr fun hmem2 => hveq (List.mem_singleton.mp hmem2)
              have := hcount v hv
              omega
          by_cases h6 : page.status = 403 ∨ page.status = 429
          · rw [crawlRest_hitBlocked h3 h4 h5 h6]
            dsimp only
            exact hcount2 u hu
          · rw [crawlRest_hitOk h3 h4 h5 h6]
            apply ih _ _ _ _ _ _ u hu
            · exact hcount2
            · intro v hv hvmem
              rcases List.mem_append.mp hvmem with h | h
              · exact List.mem_cons_of_mem _ (hmem v hv h)
              · rw [List.mem_singleton.mp h]
                exact List.mem_cons_self _ _

/-- Claim C1: for every parser and transport oracle and every seed, one
invocation of scrape_site successfully visits at most 3 pages, and a URL
whose fetch succeeded is never fetched a second time within the crawl. -/
theorem scrape_site_visit_bounds (E : ExtractOracles) (parseOk : String → Bool)
    (fetch : String → Option Page) (startUrl : String) :
    (((scrape_site E parseOk fetch startUrl).2).countP fun u => (fetch u).isSome) ≤ 3 ∧
    (∀ u, (fetch u).isSome = true →
      ((scrape_site E parseOk fetch startUrl).2).count u ≤ 1) := by
  by_cases hp : parseOk startUrl = true
  · cases hf : fetch startUrl with
    | none =>
      rw [scrape_site_seed_fail hp hf]
      constructor
      · exact le_trans (List.countP_le_length _) (by simp)
      · intro u hu
        exact le_trans (List.count_le_length _ _) (by simp)
    | some page =>
      by_cases hb : page.status = 403 ∨ page.status = 429
      · rw [scrape_site_seed_blocked hp hf hb]
        constructor
        · exact le_trans (List.countP_le_length _) (by simp)
        · intro u hu
          exact le_trans (List.count_le_length _ _) (by simp)
      · rw [scrape_site_seed_ok hp hf hb]
        constructor
        · apply crawlRest_countP
          · simp [hf]
          · omega
        · apply crawlRest_no_refetch
          · intro u hu
            exact le_trans (List.count_le_length _ _) (by simp)
          · intro u hu hmem
            exact hmem
  · rw [scrape_site_parse_fail (Bool.not_eq_true _ ▸ hp)]
    constructor
    · simp
    · intro u hu
      simp

lemma crawlRest_blocked_only (E : ExtractOracles) (fetch : String → Option Page) :
    ∀ (queue visited : List String) (pv : Nat) (res : ScrapingResult) (trace : List String),
      (∀ v ∈ trace, ¬ blockedFetch fetch v) →
      ∀ u ∈ (crawlRest E fetch queue visited pv res trace).2, blockedFetch fetch u →
        (crawlRest E fetch queue visited pv res trace).1.status = ScrapeStatus.Blocked ∧
        (crawlRest E fetch queue visited pv res trace).2.getLast? = some u := by
  intro queue
  induction queue with
  | nil =>
    intro visited pv res trace hclean u hu hbl
    rw [crawlRest_nil] at hu
    dsimp only at hu
    exact absurd hbl (hclean u hu)
  | cons url rest ih =>
    intro visited pv res trace hclean u hu hbl
    by_cases h3 : 3 ≤ pv
    · rw [crawlRest_cap h3] at hu ⊢
      dsimp only at hu
      exact absurd hbl (hclean u hu)
    · by_cases h4 : url ∈ visited
      · rw [crawlRest_skip h3 h4] at hu ⊢
        exact ih visited pv res trace hclean u hu hbl
      · cases h5 : fetch url with
        | none =>
          rw [crawlRest_fail h3 h4 h5] at hu ⊢
          refine ih _ _ _ _ ?_ u hu hbl
          intro v hv
          rcases List.mem_append.mp hv with h | h
          · exact hclean v h
          · rw [List.mem_singleton.mp h]
            rintro ⟨p, hp2, -⟩
            rw [h5] at hp2
            exact Option.noConfusion hp2
        | some page =>
          by_cases h6 : page.status = 403 ∨ page.status = 429
          · rw [crawlRest_hitBlocked h3 h4 h5 h6] at hu ⊢
            dsimp only at hu ⊢
            rcases List.mem_append.mp hu with h | h
            · exact absurd hbl (hclean u h)
            · rw [List.mem_singleton.mp h]
              exact ⟨rfl, by simp⟩
          · rw [crawlRest_hitOk h3 h4 h5 h6] at hu ⊢
            refine ih _ _ _ _ ?_ u hu hbl
            intro v hv
            rcases List.mem_append.mp hv with h | h
            · exact hclean v h
            · rw [List.mem_singleton.mp h]
              rintro ⟨p, hp2, hps⟩
              rw [h5] at hp2
              injection hp2 with hp2
              rw [← hp2] at hps
              exact h6 hps

/-- Claim C2: whenever a fetched page of the crawl answers with status 403
or 429, the crawl outcome is Blocked and that page is the last URL fetched,
so no further queued page is visited. -/
theorem scrape_site_blocked_stops (E : ExtractOracles) (parseOk : String → Bool)
    (fetch : String → Option Page) (startUrl : String) (u : String)
    (hu : u ∈ (scrape_site E parseOk fetch startUrl).2) (hbl : blockedFetch fetch u) :
    (scrape_site E parseOk fetch startUrl).1.status = ScrapeStatus.Blocked ∧
    (scrape_site E parseOk fetch startUrl).2.getLast? = some u := by
  by_cases hp : parseOk startUrl = true
  · cases hf : fetch startUrl with
    | none =>
      rw [scrape_site_seed_fail hp hf] at hu ⊢
      dsimp only at hu
      rw [List.mem_singleton.mp hu] at hbl
      obtain ⟨p, hp2, -⟩ := hbl
      rw [hf] at hp2
      exact Option.noConfusion hp2
    | some page =>
      by_cases hb : page.status = 403 ∨ page.status = 429
      · rw [scrape_site_seed_blocked hp hf hb] at hu ⊢
        dsimp only at hu ⊢
        rw [List.mem_singleton.mp hu]
        exact ⟨rfl, by simp⟩
      · rw [scrape_site_seed_ok hp hf hb] at hu ⊢
        refine crawlRest_blocked_only _ _ _ _ _ _ _ ?_ u hu hbl
        intro v hv
        rw [List.mem_singleton.mp hv]
        rintro ⟨p, hp2, hps⟩
        rw [hf] at hp2
        injection hp2 with hp2
        rw [← hp2] at hps
        exact hb hps
  · rw [scrape_site_parse_fail (Bool.not_eq_true _ ▸ hp)] at hu
    simp at hu

/-- Witness for claim C2: a transport answering 429 at the seed yields the
Blocked outcome with the seed as the only fetched page. -/
theorem scrape_site_blocked_stops_witness :
    (scrape_site noMatches parseAll fetchBlocked "https://e.com").1.status = ScrapeStatus.Blocked ∧
    (scrape_site noMatches parseAll fetchBlocked "https://e.com").2.getLast? = some "https://e.com" :=
  scrape_site_blocked_stops noMatches parseAll fetchBlocked "https://e.com" "https://e.com"
    (by decide) ⟨blockedPage, rfl, Or.inr rfl⟩

/-- Claim C7: a transport error on the first page of the crawl yields
outcome Error immediately with no further fetch, while a transport error on
a later page only skips that page and the loop continues on the remaining
queue with the state unchanged apart from the fetch trace. -/
theorem scrape_site_fetch_error_policy (E : ExtractOracles) (parseOk : String → Bool)
    (fetch : String → Option Page) (startUrl : String) :
    (parseOk startUrl = true → fetch startUrl = none →
      scrape_site E parseOk fetch startUrl =
        ({ emptyResult with status := ScrapeStatus.Error }, [startUrl])) ∧
    (∀ (url : String) (rest visited : List String) (pv : Nat) (res : ScrapingResult)
        (trace : List String), pv < 3 → url ∉ visited → fetch url = none →
      crawlRest E fetch (url :: rest) visited pv res trace =
        crawlRest E fetch rest visited pv res (trace ++ [url])) := by
  constructor
  · intro hp hf
    exact scrape_site_seed_fail hp hf
  · intro url rest visited pv res trace hpv hvis hf
    exact crawlRest_fail (by omega) hvis hf

/-- Claim C10: a seed string the URL parser rejects yields outcome Error
with empty email and phone sets, no contacts, no source pages, and an empty
fetch trace (no network request). -/
theorem scrape_site_invalid_seed (E : ExtractOracles) (parseOk : String → Bool)
    (fetch : String → Option Page) (startUrl : String)
    (h : parseOk startUrl = false) :
    scrape_site E parseOk fetch startUrl =
      ({ emails := [], phones := [], contacts := [], status := ScrapeStatus.Error,
         source_pages := [] }, []) :=
  scrape_site_parse_fail h

/-- Witness for claim C10 at a concrete rejected seed. -/
theorem scrape_site_invalid_seed_witness :
    scrape_site noMatches parseNone fetchFail "not a url" =
      ({ emails := [], phones := [], contacts := [], status := ScrapeStatus.Error,
         source_pages := [] }, []) :=
  scrape_site_invalid_seed noMatches parseNone fetchFail "not a url" rfl

lemma pushLog_foldl_bound : ∀ (ops : List LogOp) (init : List String),
    (ops.foldl pushLog init).length ≤ max init.length 50 + ops.countP isDirectPush := by
  intro ops
  induction ops with
  | nil => intro init; simp
  | cons op ops ih =>
    intro init
    rw [List.foldl_cons, List.countP_cons]
    have hmax : max (pushLog init op).length 50 ≤
        max init.length 50 + (if isDirectPush op then 1 else 0) := by
      cases op with
      | update msg =>
        cases msg with
        | none => simp [pushLog, isDirectPush]
        | some m =>
          show max (if (init ++ [m]).length > 50
            then (init ++ [m]).tail else init ++ [m]).length 50 ≤ _
          by_cases hl : (init ++ [m]).length > 50
          · rw [if_pos hl]
            simp only [isDirectPush, List.length_tail, List.length_append,
              List.length_singleton, if_false]
            simp only [List.length_append, List.length_singleton] at hl
            omega
          · rw [if_neg hl]
            simp only [isDirectPush, List.length_append, List.length_singleton, if_false]
            simp only [List.length_append, List.length_singleton] at hl
            omega
      | stopMsg =>
        simp only [pushLog, isDirectPush, List.length_append, List.length_singleton, if_true]
        omega
      | resumeMsg =>
        simp only [pushLog, isDirectPush, List.length_append, List.length_singleton, if_true]
        omega
    have hrec := ih (pushLog init op)
    cases hdp : isDirectPush op <;> simp only [hdp, if_true, if_false] at hmax ⊢ <;> omega

set_option maxRecDepth 4000 in
/-- Claim C4, counterexample: after 49 capped log updates (filling the log
of a fresh job to 50 lines) one observed stop request pushes a 51st line,
so the rolling log is not bounded by 50 under every operation sequence. -/
theorem rolling_log_overflow_cex :
    (runLogOps logOverflowOps).length = 51 ∧ ¬ (runLogOps logOverflowOps).length ≤ 50 := by
  constructor
  · decide
  · decide

/-- Claim C4 (amended): lines appended through the update_status path evict
the oldest line when the log is full and keep the log at 50 lines or fewer
whenever it was; the log lines pushed directly when a stop or a resume is
observed bypass the cap, so a job log is bounded by 50 plus the number of
those direct pushes. -/
theorem rolling_log_amended :
    (∀ (logs : List String) (msg : String), logs.length = 50 →
      pushLog logs (LogOp.update (some msg)) = logs.tail ++ [msg]) ∧
    (∀ (logs : List String) (msg : Option String), logs.length ≤ 50 →
      (pushLog logs (LogOp.update msg)).length ≤ 50) ∧
    (∀ (ops : List LogOp) (init : List String),
      (ops.foldl pushLog init).length ≤ max init.length 50 + ops.countP isDirectPush) ∧
    (∀ ops : List LogOp, (runLogOps ops).length ≤ 50 + ops.countP isDirectPush) := by
  refine ⟨?_, ?_, pushLog_foldl_bound, ?_⟩
  · intro logs msg h
    show (if (logs ++ [msg]).length > 50 then (logs ++ [msg]).tail else logs ++ [msg]) =
      logs.tail ++ [msg]
    rw [if_pos (by simp [h])]
    cases logs with
    | nil => simp at h
    | cons a l => simp
  · intro logs msg h
    cases msg with
    | none => simpa [pushLog] using h
    | some m =>
      show (if (logs ++ [m]).length > 50 then (logs ++ [m]).tail else logs ++ [m]).length ≤ 50
      by_cases hl : (logs ++ [m]).length > 50
      · rw [if_pos hl]
        simp only [List.length_tail, List.length_append, List.length_singleton]
        omega
      · rw [if_neg hl]
        simp only [List.length_append, List.length_singleton] at hl ⊢
        omega
  · intro ops
    have := pushLog_foldl_bound ops initialLogs
    simpa [runLogOps, initialLogs] using this

/-- Witness for the amended claim C4 at a concrete full log. -/
theorem rolling_log_amended_witness :
    pushLog (List.replicate 50 "old") (LogOp.update (some "new")) =
      (List.replicate 50 "old").tail ++ ["new"] :=
  rolling_log_amended.1 (List.replicate 50 "old") "new" (by decide)

lemma contactSlot_length (cs : List Contact) (j : Nat) : (contactSlot cs j).length = 4 := by
  cases h : cs[j]? <;> simp [contactSlot, h]

lemma contactSlot_take : ∀ (cs : List Contact) (n j : Nat), j < n →
    contactSlot (cs.take n) j = contactSlot cs j := by
  have hget : ∀ (cs : List Contact) (n j : Nat), j < n → (cs.take n)[j]? = cs[j]? := by
    intro cs
    induction cs with
    | nil => simp
    | cons c cs ih =>
      intro n j h
      cases n with
      | zero => omega
      | succ n =>
        cases j with
        | zero => simp
        | succ j => simpa using ih n j (by omega)
  intro cs n j h
  rw [contactSlot, contactSlot, hget cs n j h]

/-- Claim C5: every output row of the job controller consists of the eight
base columns company, country, website, joined emails, joined phones, joined
source pages, outcome code and timestamp, in that order, followed by exactly
five flattened contact slots of four cells each (contacts beyond the fifth
are dropped, missing slots are empty), for a total of 28 cells; the batch
main loop writes the same eight base columns. -/
theorem output_row_format :
    (∀ (record : InputRecord) (url : String) (scrapeOf : String → ScrapingResult) (ts : String),
      itemRow record (some url) scrapeOf ts =
        [record.company, record.country, url,
         String.intercalate "; " (scrapeOf url).emails,
         String.intercalate "; " (scrapeOf url).phones,
         String.intercalate "; " (scrapeOf url).source_pages,
         statusCode (scrapeOf url).status, ts] ++ flattenContacts (scrapeOf url).contacts) ∧
    (∀ (record : InputRecord) (scrapeOf : String → ScrapingResult) (ts : String),
      itemRow record none scrapeOf ts =
        [record.company, record.country, "", "", "", "", "not_found", ts] ++
          flattenContacts []) ∧
    (∀ (record : InputRecord) (target : Option String) (scrapeOf : String → ScrapingResult)
        (ts : String), (itemRow record target scrapeOf ts).length = 28) ∧
    (∀ cs : List Contact, (flattenContacts cs).length = 20) ∧
    (∀ cs : List Contact, flattenContacts cs = flattenContacts (cs.take 5)) ∧
    (∀ (cs : List Contact) (j : Nat), j < 5 →
      ∃ pre post, flattenContacts cs = pre ++ contactSlot cs j ++ post ∧ pre.length = 4 * j) ∧
    (∀ (record : InputRecord) (target : Option String) (scrapeOf : String → ScrapingResult)
        (ts : String), mainRow record target scrapeOf ts = (itemRow record target scrapeOf ts).take 8) := by
  have hflatlen : ∀ cs : List Contact, (flattenContacts cs).length = 20 := by
    intro cs
    simp [flattenContacts, contactSlot_length]
  refine ⟨?_, ?_, ?_, hflatlen, ?_, ?_, ?_⟩
  · intro record url scrapeOf ts
    rfl
  · intro record scrapeOf ts
    rfl
  · intro record target scrapeOf ts
    cases target <;> simp [itemRow, hflatlen]
  · intro cs
    rw [flattenContacts, flattenContacts,
      contactSlot_take cs 5 0 (by omega), contactSlot_take cs 5 1 (by omega),
      contactSlot_take cs 5 2 (by omega), contactSlot_take cs 5 3 (by omega),
      contactSlot_take cs 5 4 (by omega)]
  · intro cs j hj
    interval_cases j
    · exact ⟨[], contactSlot cs 1 ++ (contactSlot cs 2 ++ (contactSlot cs 3 ++ contactSlot cs 4)),
        by simp [flattenContacts], by simp⟩
    · exact ⟨contactSlot cs 0, contactSlot cs 2 ++ (contactSlot cs 3 ++ contactSlot cs 4),
        by simp [flattenContacts, List.append_assoc], by simp [contactSlot_length]⟩
    · exact ⟨contactSlot cs 0 ++ contactSlot cs 1, contactSlot cs 3 ++ contactSlot cs 4,
        by simp [flattenContacts, List.append_assoc], by simp [contactSlot_length]⟩
    · exact ⟨contactSlot cs 0 ++ (contactSlot cs 1 ++ contactSlot cs 2), contactSlot cs 4,
        by simp [flattenContacts, List.append_assoc], by simp [contactSlot_length]⟩
    · exact ⟨contactSlot cs 0 ++ (contactSlot cs 1 ++ (contactSlot cs 2 ++ contactSlot cs 3)), [],
        by simp [flattenContacts, List.append_assoc], by simp [contactSlot_length]⟩
  · intro record target scrapeOf ts
    cases target with
    | none =>
      rw [mainRow, itemRow]
      rw [List.take_left' (by rfl)]
    | some url =>
      rw [mainRow, itemRow]
      rw [List.take_left' (by rfl)]

lemma mpw_nil : marksPrecededByWrite [] := by
  intro pre post id h
  exact absurd h (by simp)

lemma mpw_skip (id0 : String) : marksPrecededByWrite [RunEv.skip id0] := by
  intro pre post id h
  rcases pre with _ | ⟨a, pre⟩ <;> simp_all

lemma mpw_write (id0 : String) (ok0 : Bool) :
    marksPrecededByWrite [RunEv.writeRow id0 ok0] := by
  intro pre post id h
  rcases pre with _ | ⟨a, pre⟩ <;> simp_all

lemma mpw_item (id0 : String) (ok0 : Bool) :
    marksPrecededByWrite [RunEv.writeRow id0 ok0, RunEv.flushed, RunEv.mark id0] := by
  intro pre post id h
  rcases pre with _ | ⟨a, _ | ⟨b, _ | ⟨c, pre⟩⟩⟩
  · simp at h
  · simp at h
  · simp only [List.cons_append, List.nil_append, List.cons.injEq] at h
    obtain ⟨ha, hb, hm, -⟩ := h
    obtain ⟨hid⟩ := RunEv.mark.inj hm
    exact ⟨[], ok0, by rw [← ha, ← hb]; rfl⟩
  · simp at h

lemma mpw_append {evs B : List RunEv} (h : marksPrecededByWrite evs)
    (hB : marksPrecededByWrite B) : marksPrecededByWrite (evs ++ B) := by
  intro pre post id heq
  rcases List.append_eq_append_iff.mp heq with ⟨a2, ha1, ha2⟩ | ⟨c2, hc1, hc2⟩
  · obtain ⟨pre₀, ok, hp⟩ := hB a2 post id ha2
    exact ⟨evs ++ pre₀, ok, by rw [ha1, hp, List.append_assoc]⟩
  · cases c2 with
    | nil =>
      simp only [List.nil_append] at hc2
      obtain ⟨pre₀, ok, hp⟩ := hB [] post id hc2.symm
      exact absurd hp.symm (by simp)
    | cons x c3 =>
      simp only [List.cons_append, List.cons.injEq] at hc2
      obtain ⟨hx, hpost⟩ := hc2
      obtain ⟨pre₀, ok, hp⟩ := h pre c3 id (by rw [hc1, hx])
      exact ⟨pre₀, ok, hp⟩

lemma runBatch_inv (writeOk flushOk : Nat → Bool) (init : List String) :
    ∀ (records : List InputRecord) (i : Nat) (st : RunState),
      init ⊆ st.ledger →
      marksPrecededByWrite st.events →
      (∀ id, id ∈ st.ledger ↔ id ∈ init ∨ RunEv.mark id ∈ st.events) →
      (∀ id ok, RunEv.writeRow id ok ∈ st.events → id ∉ init) →
      (∀ id, RunEv.mark id ∈ st.events → (∀ n, writeOk n = true) →
        RunEv.writeRow id true ∈ st.events) →
      init ⊆ (runBatch writeOk flushOk records i st).ledger ∧
      marksPrecededByWrite (runBatch writeOk flushOk records i st).events ∧
      (∀ id, id ∈ (runBatch writeOk flushOk records i st).ledger ↔
        id ∈ init ∨ RunEv.mark id ∈ (runBatch writeOk flushOk records i st).events) ∧
      (∀ id ok, RunEv.writeRow id ok ∈ (runBatch writeOk flushOk records i st).events →
        id ∉ init) ∧
      (∀ id, RunEv.mark id ∈ (runBatch writeOk flushOk records i st).events →
        (∀ n, writeOk n = true) →
        RunEv.writeRow id true ∈ (runBatch writeOk flushOk records i st).events) := by
  intro records
  induction records with
  | nil =>
    intro i st H1 H2 H3 H4 H5
    rw [runBatch]
    exact ⟨H1, H2, H3, H4, H5⟩
  | cons r rest ih =>
    intro i st H1 H2 H3 H4 H5
    rw [runBatch]
    by_cases hmem : rustTrim r.company ∈ st.ledger
    · rw [if_pos hmem]
      apply ih
      · exact H1
      · exact mpw_append H2 (mpw_skip _)
      · intro id
        simpa using H3 id
      · intro id ok h
        exact H4 id ok (by simpa using h)
      · intro id h hall
        exact List.mem_append_left _ (H5 id (by simpa using h) hall)
    · rw [if_neg hmem]
      by_cases hfl : flushOk i = true
      · rw [if_pos hfl]
        apply ih
        · intro x hx
          exact mem_insertDedup.mpr (Or.inl (H1 hx))
        · rw [List.append_assoc]
          exact mpw_append H2 (mpw_item _ _)
        · intro id
          simp only [mem_insertDedup]
          have hm : RunEv.mark id ∈
              (st.events ++ [RunEv.writeRow (rustTrim r.company) (writeOk i)]) ++
                [RunEv.flushed, RunEv.mark (rustTrim r.company)] ↔
              RunEv.mark id ∈ st.events ∨ id = rustTrim r.company := by
            simp [List.mem_append]
          rw [hm, H3 id]
          tauto
      
        · intro id ok h
          simp only [List.mem_append, List.mem_singleton, List.mem_cons] at h
          rcases h with ((h | h) | h)
          · exact H4 id ok h
          · obtain ⟨rfl, -⟩ : id = rustTrim r.company ∧ ok = writeOk i := by
              simpa using h
            exact fun hin => hmem (H1 hin)
          · simp at h
        · intro id h hall
          have hm : RunEv.mark id ∈ st.events ∨ id = rustTrim r.company := by
            simpa [List.mem_append] using h
          rcases hm with hm | rfl
          · exact List.mem_append_left _ (List.mem_append_left _ (H5 id hm hall))
          · apply List.mem_append_left
            apply List.mem_append_right
            simp [hall i]
      · rw [if_neg (by simp [hfl])]
        refine ⟨H1, mpw_append H2 (mpw_write _ _), ?_, ?_, ?_⟩
        · intro id
          simpa using H3 id
        · intro id ok h
          simp only [List.mem_append, List.mem_singleton] at h
          rcases h with h | h
          · exact H4 id ok h
          · obtain ⟨rfl, -⟩ : id = rustTrim r.company ∧ ok = writeOk i := by
              simpa using h
            exact fun hin => hmem (H1 hin)
        · intro id h hall
          exact List.mem_append_left _ (H5 id (by simpa using h) hall)

/-- Claim C6, counterexample to the stated durability direction: with a
failing row write (which the source only logs) and a succeeding flush, the
single item is still marked complete, so the ledger holds an identifier
whose row was never written. -/
theorem ledger_without_row_cex :
    (runMain alwaysFalse alwaysTrue [cexRecord] []).ledger = ["A"] ∧
    RunEv.mark "A" ∈ (runMain alwaysFalse alwaysTrue [cexRecord] []).events ∧
    RunEv.writeRow "A" true ∉ (runMain alwaysFalse alwaysTrue [cexRecord] []).events := by
  refine ⟨by decide, by decide, by decide⟩

/-- Claim C6 (amended): a batch run skips every record whose trimmed company
name is in the loaded ledger, never writing or marking it; the final ledger
is the initial one plus exactly the marked identifiers; every mark sits
immediately after the row write attempt and the flush of the same
identifier; and when every row write succeeds, every identifier added to the
ledger has a written row.  A failed row write is only logged and the item is
still marked, so only that failure mode can put an identifier without a row
into the ledger. -/
theorem batch_ledger_amended (writeOk flushOk : Nat → Bool)
    (records : List InputRecord) (init : List String) :
    (∀ id, id ∈ (runMain writeOk flushOk records init).ledger ↔
        id ∈ init ∨ RunEv.mark id ∈ (runMain writeOk flushOk records init).events) ∧
    (∀ id, id ∈ init →
        (∀ ok, RunEv.writeRow id ok ∉ (runMain writeOk flushOk records init).events) ∧
        RunEv.mark id ∉ (runMain writeOk flushOk records init).events) ∧
    marksPrecededByWrite (runMain writeOk flushOk records init).events ∧
    ((∀ n, writeOk n = true) → ∀ id,
        id ∈ (runMain writeOk flushOk records init).ledger → id ∉ init →
        RunEv.writeRow id true ∈ (runMain writeOk flushOk records init).events) := by
  obtain ⟨P1, P2, P3, P4, P5⟩ :=
    runBatch_inv writeOk flushOk init records 0 { ledger := init, events := [] }
      (fun x hx => hx) mpw_nil (by simp) (by simp) (by simp)
  refine ⟨P3, ?_, P2, ?_⟩
  · intro id hid
    constructor
    · intro ok h
      exact P4 id ok h hid
    · intro h
      obtain ⟨s, t, hst⟩ := List.append_of_mem h
      obtain ⟨pre₀, ok, hp⟩ := P2 s t id hst
      have hw : RunEv.writeRow id ok ∈ (runMain writeOk flushOk records init).events := by
        rw [hst, hp]
        simp
      exact P4 id ok hw hid
  · intro hall id hid hnotinit
    rcases (P3 id).mp hid with h | h
    · exact absurd h hnotinit
    · exact P5 id h hall

/-- Witness for the amended claim C6: with one record whose identifier is
already in the ledger, the run writes and marks nothing. -/
theorem batch_ledger_amended_witness :
    (∀ ok, RunEv.writeRow "B" ok ∉
      (runMain alwaysTrue alwaysTrue [{ company := "B", website := none, country := "" }]
        ["B"]).events) ∧
    RunEv.mark "B" ∉
      (runMain alwaysTrue alwaysTrue [{ company := "B", website := none, country := "" }]
        ["B"]).events :=
  (batch_ledger_amended alwaysTrue alwaysTrue
    [{ company := "B", website := none, country := "" }] ["B"]).2.1 "B" (by decide)

end Scrapper
